import Mathlib

set_option maxHeartbeats 1000000

/-!
Verification of the NuLink watcher's block-polling / epoch-synchronization
engine (package `ethereum` of the watcher): the staker data model, the
top-20 ranking, the epoch synchronizer `syncStakeInfos`, the deposit-event
accumulator path `getDepositEventsForBlock`, the polling loop `PollBlocks`,
the registry enumeration `GetStakeInfo`, and the snapshot persistence pair
`WriteStakeInfos` / `ReadStakeInfos`.

Bytes are modelled as natural numbers below 256; byte slices as lists of
naturals; big integers as naturals; Go errors as `Option String` (`none` is
the nil error). External calls (RPC clients, the destination chain) are
modelled as oracle parameters carrying the value and error each call returns.
-/

/-- Record `substrate.StakeInfo`. Modelled from the spec: the `substrate`
package is not among the sources at hand; per the data model a StakerRecord
has an identity (`Coinbase`, bytes derived from an address), raw address
bytes (`WorkBase`), an active flag (`IsWork`), an unsigned big-integer
locked balance and an unsigned work counter. -/
structure StakeInfo where
  coinbase : List Nat
  workBase : List Nat
  isWork : Bool
  lockedBalance : Nat
  workCount : Nat
  deriving Repr, DecidableEq

abbrev StakeInfos := List StakeInfo

/-- Descending comparison on locked balance: `stakeGE a b` holds when `a`
locks at least as much as `b`. -/
def stakeGE (a b : StakeInfo) : Prop := b.lockedBalance ≤ a.lockedBalance

instance : DecidableRel stakeGE := fun a b => Nat.decLe _ _

instance : IsTotal StakeInfo stakeGE :=
  ⟨fun a b => (Nat.le_total a.lockedBalance b.lockedBalance).symm⟩

instance : IsTrans StakeInfo stakeGE :=
  ⟨fun _ _ _ hab hbc => Nat.le_trans hbc hab⟩

/-- Modelled from the spec: `StakeInfos.LockedBalanceTop20` lives in the
`substrate` package, absent from the sources at hand. Per the ranking
component: the top 20 records by `lockedBalance` in descending order,
stable with respect to input order for equal balances — a stable
descending sort followed by taking the first 20 records. -/
def LockedBalanceTop20 (s : StakeInfos) : StakeInfos :=
  (s.insertionSort stakeGE).take 20

/-- External actions the epoch synchronizer performs, in order: the
destination-chain submission, the snapshot write and the cursor write. -/
inductive SyncEvent where
  | submitTx (payload : StakeInfos)
  | writeStakeInfos (infos : StakeInfos)
  | writeLatestBlock (block : Nat)
  deriving Repr, DecidableEq

/-- Outcome of one `syncStakeInfos` call: the external actions performed,
in order, and the returned error. -/
structure SyncResult where
  events : List SyncEvent
  error : Option String
  deriving Repr, DecidableEq

/-- The stopped-staker diff loop of `Listener.syncStakeInfos` (the loop over
`lastInfos`). In the Go source the inner loop
`for _, info := range top20StakeInfos { if bytes.Equal(li.WorkBase, info.WorkBase) { continue } }`
performs the comparisons but changes nothing: `continue` merely skips to the
next inner iteration, so after the inner loop every `li` is marked
`IsWork = false` and appended to `stoppedStaker` unconditionally. The
discarded `let` mirrors the effect-free comparisons. -/
def stoppedStakers (lastInfos top20StakeInfos : StakeInfos) : StakeInfos :=
  lastInfos.foldl (fun stoppedStaker li =>
    let _ := top20StakeInfos.map (fun info => li.workBase == info.workBase)
    stoppedStaker ++ [{ li with isWork := false }]) []

/-- Function `Listener.syncStakeInfos`. Oracle parameters carry the results
of `GetStakeInfo`, `ReadStakeInfos`, `SubmitTx`, `WriteStakeInfos` and
`WriteLatestBlock`; the result lists the external actions performed in
order together with the returned error. -/
def syncStakeInfos (epochLength latestBlock : Nat)
    (getStakeInfoRes : StakeInfos × Option String)
    (readStakeInfosRes : StakeInfos × Option String)
    (submitTxErr : Option String)
    (writeStakeInfosErr : Option String)
    (writeLatestBlockErr : Option String) : SyncResult :=
  if latestBlock % epochLength != 0 then { events := [], error := none }
  else match getStakeInfoRes with
    | (_, some e) => { events := [], error := some e }
    | (stakeInfos, none) =>
      let top20StakeInfos := LockedBalanceTop20 stakeInfos
      match readStakeInfosRes with
      | (_, some e) => { events := [], error := some e }
      | (lastInfos, none) =>
        let stoppedStaker := stoppedStakers lastInfos top20StakeInfos
        let infos := top20StakeInfos ++ stoppedStaker
        match submitTxErr with
        | some e => { events := [SyncEvent.submitTx infos], error := some e }
        | none =>
          match writeStakeInfosErr with
          | some e =>
            { events := [SyncEvent.submitTx infos,
                SyncEvent.writeStakeInfos top20StakeInfos], error := some e }
          | none =>
            match writeLatestBlockErr with
            | some e =>
              { events := [SyncEvent.submitTx infos,
                  SyncEvent.writeStakeInfos top20StakeInfos,
                  SyncEvent.writeLatestBlock latestBlock], error := some e }
            | none =>
              { events := [SyncEvent.submitTx infos,
                  SyncEvent.writeStakeInfos top20StakeInfos,
                  SyncEvent.writeLatestBlock latestBlock], error := none }

/-- One decoded deposit log entry: the staker topic bytes and the two
32-byte words of the data payload. -/
structure DepositLog where
  staker : List Nat
  value : Nat
  periods : Nat
  deriving Repr, DecidableEq

/-- The StakeInfo record `getDepositEventsForBlock` appends for one log. -/
def depositRecordOfLog (lg : DepositLog) : StakeInfo :=
  { coinbase := lg.staker, workBase := lg.staker, isWork := true,
    lockedBalance := lg.value, workCount := 0 }

/-- Function `Listener.getDepositEventsForBlock`, acting on the package-level
accumulator `stakeInfoList`. Returns the new accumulator and the returned
error. In the source, at an epoch boundary with a non-empty accumulator the
`SubmitTx` result is only logged (both branches of the `if err := ...` fall
through), and `stakeInfoList = make([]*substrate.StakeInfo, 0, 1000)` then
resets the accumulator unconditionally; `submitTxErr` is therefore not
consulted by the control flow. -/
def getDepositEventsForBlock (epochLength latestBlock : Nat)
    (filterLogsRes : Except String (List DepositLog))
    (submitTxErr : Option String)
    (stakeInfoList : StakeInfos) : StakeInfos × Option String :=
  match filterLogsRes with
  | .error e => (stakeInfoList, some e)
  | .ok logs =>
    let stakeInfoList := stakeInfoList ++ logs.map depositRecordOfLog
    if latestBlock % epochLength == 0 then
      if stakeInfoList.length == 0 then (stakeInfoList, none)
      else
        let _ := submitTxErr
        (([] : StakeInfos), none)
    else (stakeInfoList, none)

/-- State of the `PollBlocks` loop: the candidate block height and the
remaining retry budget. -/
structure PollState where
  currentBlock : Nat
  retry : Nat
  deriving Repr, DecidableEq

/-- What one iteration of `PollBlocks` observes: either the stop channel has
a signal, or the iteration runs with the given `LatestBlock` result
(`none` models a fetch error) and, were processing reached, the given
`syncStakeInfos` outcome. -/
inductive PollInput where
  | stopSignal
  | run (latestBlockRes : Option Nat) (syncErr : Option String)
  deriving Repr, DecidableEq

/-- Result of one iteration of `PollBlocks`: the loop returned the
"polling terminated" error, returned nil after signalling stop on exhausted
retries, returned the processing error, or continues at the given state. -/
inductive PollStepResult where
  | stopped
  | retriesExceeded
  | failed (e : String)
  | next (s : PollState)
  deriving Repr, DecidableEq

/-- One iteration of the `for` loop in `Listener.PollBlocks`: stop-channel
check, exhausted-retries check, `LatestBlock` fetch (on error the budget is
decremented and the same height retried), the confirmation-depth comparison
`(latestBlock - currentBlock).Cmp(BlockConfirmations) == -1` (wait, same
height, budget untouched), then `syncStakeInfos` (its error is returned;
on success the height advances and the budget resets to the limit). -/
def pollStep (blockConfirmations blockRetryLimit : Nat) (s : PollState)
    (inp : PollInput) : PollStepResult :=
  match inp with
  | .stopSignal => .stopped
  | .run latestBlockRes syncErr =>
    if s.retry == 0 then .retriesExceeded
    else match latestBlockRes with
      | none => .next { s with retry := s.retry - 1 }
      | some latestBlock =>
        if (latestBlock : Int) - (s.currentBlock : Int) < (blockConfirmations : Int) then
          .next s
        else match syncErr with
          | some e => .failed e
          | none => .next { currentBlock := s.currentBlock + 1, retry := blockRetryLimit }

/-- The `PollBlocks` loop run over a finite list of iteration inputs:
iterates `pollStep` until a terminal result; `.next s` at the end means the
loop is still running at state `s` with the supplied inputs exhausted. -/
def pollRun (blockConfirmations blockRetryLimit : Nat) (s : PollState) :
    List PollInput → PollStepResult
  | [] => .next s
  | inp :: rest =>
    match pollStep blockConfirmations blockRetryLimit s inp with
    | .next s2 => pollRun blockConfirmations blockRetryLimit s2 rest
    | r => r

/-- Oracle for the on-chain staker registry used by `GetStakeInfo`: the
error of `NewNucypher`, the result of `GetStakersLength`, and for each
index / address the value-and-error pair returned by `Stakers` and
`StakerInfo` (a failed Go binding call still returns its zero value
together with the error). -/
structure Registry where
  newNucypherErr : Option String
  getStakersLengthRes : Except String Nat
  stakers : Nat → List Nat × Option String
  stakerInfoValue : List Nat → Nat × Option String

/-- Function `Listener.GetStakeInfo`. When `NewNucypher` or
`GetStakersLength` fails the function returns the empty list and a nil
error. The loop bound divides the staker count by 50 (the source's
`// todo remove 50`). Inside the loop the errors of `Stakers` and
`StakerInfo` are logged but not acted upon: the record is appended
regardless, and the `err` returned at the end is the outer one, which is
nil on every path that reaches the loop. -/
def GetStakeInfo (reg : Registry) : StakeInfos × Option String :=
  match reg.newNucypherErr with
  | some _ => (([] : StakeInfos), none)
  | none =>
    match reg.getStakersLengthRes with
    | .error _ => (([] : StakeInfos), none)
    | .ok length =>
      let stakeInfos := (List.range (length / 50)).map (fun i =>
        let (staker, _stakersErr) := reg.stakers i
        let (value, _stakerInfoErr) := reg.stakerInfoValue staker
        { coinbase := staker, workBase := staker, isWork := true,
          lockedBalance := value, workCount := 0 })
      (stakeInfos, none)

/-!
Persistence model. The source serializes the snapshot with the off-the-shelf
recursive length-prefixed binary encoding (RLP) and stores the bytes in a
file. Modelled from the spec: the serializer is external to the repository
(the spec treats it as "an off-the-shelf deterministic serializer" producing
"a deterministic binary (recursive length-prefixed) encoding of an ordered
StakerRecord sequence"), so it is modelled here concretely as RLP over the
record's five fields: a record is the RLP list of its identity bytes, its
address bytes, its flag (as the canonical boolean byte string) and the two
integers as minimal big-endian byte strings; a snapshot is the RLP list of
its records. The file system is a map from paths to byte contents.
-/

/-- Minimal big-endian byte representation of a natural number; `0`
is represented by the empty byte string. -/
def beBytes (n : Nat) : List Nat :=
  if h : n = 0 then [] else beBytes (n / 256) ++ [n % 256]
  decreasing_by exact Nat.div_lt_self (Nat.pos_of_ne_zero h) (by omega)

/-- Value of a big-endian byte string. -/
def beVal (bs : List Nat) : Nat := bs.foldl (fun acc b => acc * 256 + b) 0

/-- Length-prefixed encoding shared by RLP strings and lists: a short
payload (at most 55 bytes) gets a one-byte header carrying its length,
a long payload gets a header carrying the byte length of its length
followed by the length itself in big-endian. -/
def encWithLen (offShort offLong : Nat) (payload : List Nat) : List Nat :=
  if payload.length ≤ 55 then (offShort + payload.length) :: payload
  else (offLong + (beBytes payload.length).length) :: (beBytes payload.length ++ payload)

/-- RLP encoding of a byte string: a single byte below 128 stands for
itself, anything else is length-prefixed with offsets 128/183. -/
def encBytes (bs : List Nat) : List Nat :=
  match bs with
  | [b] => if b < 128 then [b] else encWithLen 128 183 bs
  | _ => encWithLen 128 183 bs

/-- RLP encoding of a list given its already-encoded payload, with
offsets 192/247. -/
def encList (payload : List Nat) : List Nat := encWithLen 192 247 payload

/-- Payload of one staker record: the concatenated encodings of its five
fields. The boolean is the canonical byte string (`[1]` for true, empty
for false), the integers are minimal big-endian byte strings. -/
def stakeInfoPayload (r : StakeInfo) : List Nat :=
  encBytes r.coinbase ++ (encBytes r.workBase ++
    ((if r.isWork then encBytes [1] else encBytes []) ++
    (encBytes (beBytes r.lockedBalance) ++ encBytes (beBytes r.workCount))))

/-- RLP encoding of one staker record: the list of its five fields. -/
def encStakeInfo (r : StakeInfo) : List Nat :=
  encList (stakeInfoPayload r)

/-- Concatenated encodings of a snapshot's records. -/
def encBody : StakeInfos → List Nat
  | [] => []
  | r :: rs => encStakeInfo r ++ encBody rs

/-- RLP encoding of a snapshot: the list of its records. -/
def encStakeInfos (infos : StakeInfos) : List Nat := encList (encBody infos)

/-- RLP decoder for one byte string: returns the content and the remaining
input. -/
def parseBytes (bs : List Nat) : Option (List Nat × List Nat) :=
  match bs with
  | [] => none
  | h :: t =>
    if h < 128 then some ([h], t)
    else if h ≤ 183 then
      let n := h - 128
      if t.length < n then none else some (t.take n, t.drop n)
    else if h ≤ 191 then
      let ll := h - 183
      if t.length < ll then none
      else
        let n := beVal (t.take ll)
        let t2 := t.drop ll
        if t2.length < n then none else some (t2.take n, t2.drop n)
    else none

/-- RLP decoder for a list header: returns the list's payload bytes and the
remaining input. -/
def parseListPayload (bs : List Nat) : Option (List Nat × List Nat) :=
  match bs with
  | [] => none
  | h :: t =>
    if h < 192 then none
    else if h ≤ 247 then
      let n := h - 192
      if t.length < n then none else some (t.take n, t.drop n)
    else
      let ll := h - 247
      if t.length < ll then none
      else
        let n := beVal (t.take ll)
        let t2 := t.drop ll
        if t2.length < n then none else some (t2.take n, t2.drop n)

/-- Decoder for the canonical RLP boolean content. -/
def decodeBool (bs : List Nat) : Option Bool :=
  match bs with
  | [] => some false
  | [1] => some true
  | _ => none

/-- Decoder for one staker record: parses the record's list header, its five
fields, and requires the record payload to be fully consumed. -/
def parseStakeInfo (bs : List Nat) : Option (StakeInfo × List Nat) :=
  match parseListPayload bs with
  | none => none
  | some (payload, rest) =>
    match parseBytes payload with
    | none => none
    | some (coinbase, p1) =>
      match parseBytes p1 with
      | none => none
      | some (workBase, p2) =>
        match parseBytes p2 with
        | none => none
        | some (boolBytes, p3) =>
          match decodeBool boolBytes with
          | none => none
          | some isWork =>
            match parseBytes p3 with
            | none => none
            | some (lbBytes, p4) =>
              match parseBytes p4 with
              | none => none
              | some (wcBytes, p5) =>
                if p5 = [] then
                  some ({ coinbase := coinbase, workBase := workBase, isWork := isWork,
                          lockedBalance := beVal lbBytes, workCount := beVal wcBytes }, rest)
                else none

/-- Decoder for a sequence of records filling a list payload exactly; the
fuel bounds the recursion and is instantiated with the payload length. -/
def parseBody (fuel : Nat) (bs : List Nat) : Option StakeInfos :=
  match fuel, bs with
  | _, [] => some []
  | 0, _ :: _ => none
  | f + 1, b :: t =>
    match parseStakeInfo (b :: t) with
    | none => none
    | some (r, rest) =>
      match parseBody f rest with
      | none => none
      | some rs => some (r :: rs)

/-- Decoder for a snapshot, mirroring `rlp.DecodeBytes`: trailing bytes
after the top-level value are an error. -/
def decodeStakeInfos (data : List Nat) : Option StakeInfos :=
  match parseListPayload data with
  | none => none
  | some (payload, rest) =>
    if rest = [] then parseBody payload.length payload else none

/-- A file system: a map from paths to byte contents. -/
def FileSystem := String → Option (List Nat)

/-- Writing a file: the path now holds the given bytes. -/
def fsWrite (fs : FileSystem) (file : String) (data : List Nat) : FileSystem :=
  fun g => if g = file then some data else fs g

/-- Function `WriteStakeInfos`: serializes the snapshot and writes the bytes
to the file (directory creation and the write itself modelled as
succeeding; on their failure the source merely propagates the error and
performs no write). -/
def WriteStakeInfos (fs : FileSystem) (file : String) (infos : StakeInfos) : FileSystem :=
  fsWrite fs file (encStakeInfos infos)

/-- Function `ReadStakeInfos`: a missing file or an empty file yields the
empty snapshot and a nil error; a decode failure yields the empty snapshot
and the decode error; otherwise the decoded snapshot and a nil error. -/
def ReadStakeInfos (fs : FileSystem) (file : String) : StakeInfos × Option String :=
  match fs file with
  | none => (([] : StakeInfos), none)
  | some data =>
    if data.length = 0 then (([] : StakeInfos), none)
    else match decodeStakeInfos data with
      | none => (([] : StakeInfos), some "rlp decode stake info list failed")
      | some infos => (infos, none)

/-- Validity of a record for serialization: byte fields hold bytes, the
address fields have at most 55 bytes (real addresses have 32), the balance
fits 16 bytes (a U128) and the counter fits 8 bytes (a uint64). -/
def ValidRecord (r : StakeInfo) : Prop :=
  (∀ b ∈ r.coinbase, b < 256) ∧ (∀ b ∈ r.workBase, b < 256) ∧
  r.coinbase.length ≤ 55 ∧ r.workBase.length ≤ 55 ∧
  r.lockedBalance < 256 ^ 16 ∧ r.workCount < 256 ^ 8

/-- Validity of a snapshot: valid records, at most 20 of them (the ranked
snapshots the source persists have at most 20). -/
def ValidSnapshot (s : StakeInfos) : Prop :=
  (∀ r ∈ s, ValidRecord r) ∧ s.length ≤ 20

/-! Round-trip lemmas for the serializer. -/

theorem beVal_append_singleton (bs : List Nat) (b : Nat) :
    beVal (bs ++ [b]) = beVal bs * 256 + b := by
  simp [beVal, List.foldl_append]

theorem beVal_beBytes (n : Nat) : beVal (beBytes n) = n := by
  induction n using Nat.strong_induction_on with
  | _ n ih =>
    rw [beBytes]
    split
    · simp [beVal]; omega
    · rename_i h
      rw [beVal_append_singleton,
        ih (n / 256) (Nat.div_lt_self (Nat.pos_of_ne_zero h) (by omega))]
      omega

theorem beBytes_lt (n : Nat) : ∀ b ∈ beBytes n, b < 256 := by
  induction n using Nat.strong_induction_on with
  | _ n ih =>
    rw [beBytes]
    split
    · simp
    · rename_i h
      intro b hb
      rcases List.mem_append.mp hb with hb | hb
      · exact ih (n / 256) (Nat.div_lt_self (Nat.pos_of_ne_zero h) (by omega)) b hb
      · simp at hb
        omega

theorem beBytes_length_le (k : Nat) : ∀ n, n < 256 ^ k → (beBytes n).length ≤ k := by
  induction k with
  | zero =>
    intro n hn
    interval_cases n
    simp [beBytes]
  | succ k ih =>
    intro n hn
    rw [beBytes]
    split
    · simp
    · rename_i h
      have hdiv : n / 256 < 256 ^ k := by
        rw [Nat.div_lt_iff_lt_mul (by omega)]
        calc n < 256 ^ (k + 1) := hn
        _ = 256 ^ k * 256 := by ring
      simpa using Nat.succ_le_succ (ih (n / 256) hdiv)

theorem beBytes_ne_nil (n : Nat) (h : n ≠ 0) : beBytes n ≠ [] := by
  rw [beBytes]
  simp [h]

theorem take_len_append (xs ys : List Nat) : (xs ++ ys).take xs.length = xs := by
  simp

theorem drop_len_append (xs ys : List Nat) : (xs ++ ys).drop xs.length = ys := by
  simp

theorem parseBytes_encBytes (bs rest : List Nat) (hb : ∀ b ∈ bs, b < 256)
    (hl : bs.length < 256 ^ 8) :
    parseBytes (encBytes bs ++ rest) = some (bs, rest) := by
  have hshort : bs.length ≤ 55 → parseBytes (encWithLen 128 183 bs ++ rest) = some (bs, rest) := by
    intro h55
    rw [encWithLen, if_pos h55]
    rw [List.cons_append, parseBytes]
    rw [if_neg (by omega), if_pos (by omega)]
    simp only [Nat.add_sub_cancel_left]
    rw [if_neg (by simp)]
    rw [take_len_append, drop_len_append]
  have hlong : 55 < bs.length → parseBytes (encWithLen 128 183 bs ++ rest) = some (bs, rest) := by
    intro h55
    rw [encWithLen, if_neg (by omega)]
    have hll1 : 1 ≤ (beBytes bs.length).length := by
      have := beBytes_ne_nil bs.length (by omega)
      cases hbb : beBytes bs.length with
      | nil => exact absurd hbb this
      | cons x xs => simp
    have hll8 : (beBytes bs.length).length ≤ 8 := beBytes_length_le 8 bs.length hl
    rw [List.cons_append, parseBytes]
    rw [if_neg (by omega), if_neg (by omega), if_pos (by omega)]
    have harith : 183 + (beBytes bs.length).length - 183 = (beBytes bs.length).length := by omega
    simp only [harith]
    rw [List.append_assoc]
    rw [if_neg (by simp)]
    rw [take_len_append, drop_len_append, beVal_beBytes]
    rw [if_neg (by simp)]
    rw [take_len_append, drop_len_append]
  match bs with
  | [] => exact hshort (by simp)
  | [b] =>
    rw [encBytes]
    by_cases hb1 : b < 128
    · rw [if_pos hb1]
      rw [List.cons_append, parseBytes, if_pos hb1]
      simp
    · rw [if_neg hb1]
      exact hshort (by simp)
  | b1 :: b2 :: bt =>
    have henc : encBytes (b1 :: b2 :: bt) = encWithLen 128 183 (b1 :: b2 :: bt) := rfl
    rw [henc]
    by_cases h55 : (b1 :: b2 :: bt).length ≤ 55
    · exact hshort h55
    · exact hlong (by omega)

theorem parseListPayload_encList (payload rest : List Nat)
    (hl : payload.length < 256 ^ 8) :
    parseListPayload (encList payload ++ rest) = some (payload, rest) := by
  rw [encList, encWithLen]
  by_cases h55 : payload.length ≤ 55
  · rw [if_pos h55]
    rw [List.cons_append, parseListPayload]
    rw [if_neg (by omega), if_pos (by omega)]
    simp only [Nat.add_sub_cancel_left]
    rw [if_neg (by simp)]
    rw [take_len_append, drop_len_append]
  · rw [if_neg h55]
    have hll1 : 1 ≤ (beBytes payload.length).length := by
      have := beBytes_ne_nil payload.length (by omega)
      cases hbb : beBytes payload.length with
      | nil => exact absurd hbb this
      | cons x xs => simp
    have hll8 : (beBytes payload.length).length ≤ 8 := beBytes_length_le 8 payload.length hl
    rw [List.cons_append, parseListPayload]
    rw [if_neg (by omega), if_neg (by omega)]
    have harith : 247 + (beBytes payload.length).length - 247 = (beBytes payload.length).length := by
      omega
    simp only [harith]
    rw [List.append_assoc]
    rw [if_neg (by simp)]
    rw [take_len_append, drop_len_append, beVal_beBytes]
    rw [if_neg (by simp)]
    rw [take_len_append, drop_len_append]

theorem encWithLen_length_le (offShort offLong : Nat) (p : List Nat)
    (h : p.length < 256 ^ 8) :
    (encWithLen offShort offLong p).length ≤ 9 + p.length := by
  rw [encWithLen]
  split
  · simp
    omega
  · have := beBytes_length_le 8 p.length h
    simp
    omega

theorem encBytes_length_le (bs : List Nat) (h : bs.length ≤ 55) :
    (encBytes bs).length ≤ bs.length + 1 := by
  match bs with
  | [] => simp [encBytes, encWithLen]
  | [b] =>
    rw [encBytes]
    split
    · simp
    · simp [encWithLen]
  | b1 :: b2 :: bt =>
    have henc : encBytes (b1 :: b2 :: bt) = encWithLen 128 183 (b1 :: b2 :: bt) := rfl
    rw [henc, encWithLen, if_pos h]
    simp

theorem encWithLen_lt (offShort offLong : Nat) (p : List Nat)
    (hp : ∀ b ∈ p, b < 256) (hlen : p.length < 256 ^ 8)
    (hoffS : offShort + 55 < 256) (hoffL : offLong + 8 < 256) :
    ∀ b ∈ encWithLen offShort offLong p, b < 256 := by
  rw [encWithLen]
  split
  · intro b hb
    rcases List.mem_cons.mp hb with hb | hb
    · omega
    · exact hp b hb
  · have h8 := beBytes_length_le 8 p.length hlen
    intro b hb
    rcases List.mem_cons.mp hb with hb | hb
    · omega
    · rcases List.mem_append.mp hb with hb | hb
      · exact beBytes_lt p.length b hb
      · exact hp b hb

theorem encBytes_lt (bs : List Nat) (hb : ∀ b ∈ bs, b < 256)
    (hl : bs.length < 256 ^ 8) : ∀ b ∈ encBytes bs, b < 256 := by
  match bs with
  | [b0] =>
    rw [encBytes]
    split
    · intro b hbm
      simp at hbm
      omega
    · exact encWithLen_lt 128 183 [b0] hb (by simp) (by omega) (by omega)
  | [] => exact encWithLen_lt 128 183 [] hb (by simp) (by omega) (by omega)
  | b1 :: b2 :: bt =>
    exact encWithLen_lt 128 183 (b1 :: b2 :: bt) hb hl (by omega) (by omega)

theorem encList_lt (p : List Nat) (hp : ∀ b ∈ p, b < 256)
    (hl : p.length < 256 ^ 8) : ∀ b ∈ encList p, b < 256 :=
  encWithLen_lt 192 247 p hp hl (by omega) (by omega)

theorem stakeInfoPayload_length_le (r : StakeInfo)
    (hcl : r.coinbase.length ≤ 55) (hwl : r.workBase.length ≤ 55)
    (hlb : r.lockedBalance < 256 ^ 16) (hwc : r.workCount < 256 ^ 8) :
    (stakeInfoPayload r).length ≤ 139 := by
  have h1 := encBytes_length_le r.coinbase hcl
  have h2 := encBytes_length_le r.workBase hwl
  have h3 : (if r.isWork then encBytes [1] else encBytes []).length ≤ 1 := by
    split <;> simp [encBytes, encWithLen]
  have h4 : (encBytes (beBytes r.lockedBalance)).length ≤ 17 := by
    have h16 := beBytes_length_le 16 r.lockedBalance hlb
    have := encBytes_length_le (beBytes r.lockedBalance) (by omega)
    omega
  have h5 : (encBytes (beBytes r.workCount)).length ≤ 9 := by
    have h8 := beBytes_length_le 8 r.workCount hwc
    have := encBytes_length_le (beBytes r.workCount) (by omega)
    omega
  rw [stakeInfoPayload]
  simp only [List.length_append]
  omega

theorem stakeInfoPayload_lt (r : StakeInfo) (h : ValidRecord r) :
    ∀ b ∈ stakeInfoPayload r, b < 256 := by
  obtain ⟨hcb, hwb, hcl, hwl, hlb, hwc⟩ := h
  rw [stakeInfoPayload]
  intro b hb
  simp only [List.mem_append] at hb
  rcases hb with hb | hb | hb | hb | hb
  · exact encBytes_lt r.coinbase hcb (by omega) b hb
  · exact encBytes_lt r.workBase hwb (by omega) b hb
  · revert hb
    split
    · exact fun hb => encBytes_lt [1] (by simp) (by simp) b hb
    · exact fun hb => encBytes_lt [] (by simp) (by simp) b hb
  · exact encBytes_lt (beBytes r.lockedBalance) (beBytes_lt _)
      (by have := beBytes_length_le 16 r.lockedBalance hlb; omega) b hb
  · exact encBytes_lt (beBytes r.workCount) (beBytes_lt _)
      (by have := beBytes_length_le 8 r.workCount hwc; omega) b hb

theorem encStakeInfo_length_le (r : StakeInfo) (h : ValidRecord r) :
    (encStakeInfo r).length ≤ 148 := by
  obtain ⟨hcb, hwb, hcl, hwl, hlb, hwc⟩ := h
  have hp := stakeInfoPayload_length_le r hcl hwl hlb hwc
  have := encWithLen_length_le 192 247 (stakeInfoPayload r) (by omega)
  rw [encStakeInfo, encList]
  omega

theorem encStakeInfo_lt (r : StakeInfo) (h : ValidRecord r) :
    ∀ b ∈ encStakeInfo r, b < 256 := by
  have hp := stakeInfoPayload_lt r h
  obtain ⟨hcb, hwb, hcl, hwl, hlb, hwc⟩ := h
  have hl := stakeInfoPayload_length_le r hcl hwl hlb hwc
  exact encList_lt (stakeInfoPayload r) hp (by omega)

theorem encStakeInfo_ne_nil (r : StakeInfo) : encStakeInfo r ≠ [] := by
  rw [encStakeInfo, encList, encWithLen]
  split <;> simp

theorem encBody_length_le (s : StakeInfos) (h : ∀ r ∈ s, ValidRecord r) :
    (encBody s).length ≤ 148 * s.length := by
  induction s with
  | nil => simp [encBody]
  | cons r rs ih =>
    rw [encBody]
    have h1 := encStakeInfo_length_le r (h r (by simp))
    have h2 := ih (fun x hx => h x (List.mem_cons_of_mem r hx))
    simp only [List.length_append, List.length_cons]
    calc (encStakeInfo r).length + (encBody rs).length ≤ 148 + 148 * rs.length := by omega
    _ = 148 * (rs.length + 1) := by ring

theorem encBody_lt (s : StakeInfos) (h : ∀ r ∈ s, ValidRecord r) :
    ∀ b ∈ encBody s, b < 256 := by
  induction s with
  | nil => simp [encBody]
  | cons r rs ih =>
    rw [encBody]
    intro b hb
    rcases List.mem_append.mp hb with hb | hb
    · exact encStakeInfo_lt r (h r (by simp)) b hb
    · exact ih (fun x hx => h x (List.mem_cons_of_mem r hx)) b hb

theorem decodeBool_canonical (b : Bool) :
    decodeBool (if b then [1] else []) = some b := by
  cases b <;> rfl

theorem parseStakeInfo_encStakeInfo (r : StakeInfo) (rest : List Nat)
    (h : ValidRecord r) :
    parseStakeInfo (encStakeInfo r ++ rest) = some (r, rest) := by
  have hplt := stakeInfoPayload_lt r h
  obtain ⟨cb, wb, iw, lb, wc⟩ := r
  obtain ⟨hcb, hwb, hcl, hwl, hlb, hwc⟩ := h
  dsimp only at hcb hwb hcl hwl hlb hwc
  have hpl : (stakeInfoPayload ⟨cb, wb, iw, lb, wc⟩).length ≤ 139 :=
    stakeInfoPayload_length_le _ hcl hwl hlb hwc
  have hlb16 := beBytes_length_le 16 lb hlb
  have hwc8 := beBytes_length_le 8 wc hwc
  unfold parseStakeInfo encStakeInfo
  rw [parseListPayload_encList _ _ (by omega)]
  dsimp only
  rw [stakeInfoPayload]
  dsimp only
  rw [parseBytes_encBytes cb _ hcb (by omega)]
  dsimp only
  rw [parseBytes_encBytes wb _ hwb (by omega)]
  dsimp only
  have hboolEnc : (if iw then encBytes [1] else encBytes []) =
      encBytes (if iw then [1] else []) := by cases iw <;> rfl
  rw [hboolEnc]
  rw [parseBytes_encBytes (if iw then [1] else []) _
    (by cases iw <;> simp) (by cases iw <;> simp)]
  dsimp only
  rw [decodeBool_canonical]
  dsimp only
  rw [parseBytes_encBytes (beBytes lb) _ (beBytes_lt lb) (by omega)]
  dsimp only
  have hlast := parseBytes_encBytes (beBytes wc) [] (beBytes_lt wc) (by omega)
  rw [List.append_nil] at hlast
  rw [hlast]
  dsimp only
  rw [if_pos rfl, beVal_beBytes, beVal_beBytes]

theorem parseBody_cons (f : Nat) (b : Nat) (t : List Nat) :
    parseBody (f + 1) (b :: t) =
      match parseStakeInfo (b :: t) with
      | none => none
      | some (r, rest) =>
        match parseBody f rest with
        | none => none
        | some rs => some (r :: rs) := rfl

theorem parseBody_encBody (s : StakeInfos) (hv : ∀ r ∈ s, ValidRecord r) :
    ∀ fuel, (encBody s).length ≤ fuel → parseBody fuel (encBody s) = some s := by
  induction s with
  | nil =>
    intro fuel _
    cases fuel <;> simp [encBody, parseBody]
  | cons r rs ih =>
    intro fuel hf
    have hr : ValidRecord r := hv r (by simp)
    have hne : encStakeInfo r ≠ [] := encStakeInfo_ne_nil r
    have hlenr : 1 ≤ (encStakeInfo r).length := by
      cases henc : encStakeInfo r with
      | nil => exact absurd henc hne
      | cons x xs => simp
    obtain ⟨b, t, hbt⟩ : ∃ b t, encBody (r :: rs) = b :: t := by
      rw [encBody]
      cases henc : encStakeInfo r with
      | nil => exact absurd henc hne
      | cons x xs => exact ⟨x, xs ++ encBody rs, by simp⟩
    have hflen : (encBody (r :: rs)).length ≤ fuel := hf
    cases fuel with
    | zero =>
      exfalso
      rw [hbt] at hflen
      simp at hflen
    | succ f =>
      rw [hbt, parseBody_cons, ← hbt, encBody]
      rw [parseStakeInfo_encStakeInfo r _ hr]
      dsimp only
      have hrs : (encBody rs).length ≤ f := by
        rw [encBody] at hflen
        simp only [List.length_append] at hflen
        omega
      rw [ih (fun x hx => hv x (List.mem_cons_of_mem r hx)) f hrs]

theorem encStakeInfos_ne_nil (s : StakeInfos) : encStakeInfos s ≠ [] := by
  rw [encStakeInfos, encList, encWithLen]
  split <;> simp

theorem decodeStakeInfos_encStakeInfos (s : StakeInfos) (h : ValidSnapshot s) :
    decodeStakeInfos (encStakeInfos s) = some s := by
  obtain ⟨hv, hlen⟩ := h
  have hl := encBody_length_le s hv
  unfold decodeStakeInfos encStakeInfos
  have hpl := parseListPayload_encList (encBody s) [] (by omega)
  rw [List.append_nil] at hpl
  rw [hpl]
  dsimp only
  rw [if_pos rfl]
  exact parseBody_encBody s hv (encBody s).length (Nat.le_refl _)

/-! Stability of the ranking with respect to equal balances. -/

theorem filter_orderedInsert (a : StakeInfo) (b : Nat) (m : List StakeInfo) :
    (m.orderedInsert stakeGE a).filter (fun x => x.lockedBalance == b) =
      if a.lockedBalance = b then
        a :: m.filter (fun x => x.lockedBalance == b)
      else m.filter (fun x => x.lockedBalance == b) := by
  induction m with
  | nil =>
    by_cases hab : a.lockedBalance = b
    · rw [if_pos hab]
      simp [hab]
    · rw [if_neg hab]
      simp [hab]
  | cons c m ih =>
    rw [List.orderedInsert]
    by_cases hac : stakeGE a c
    · rw [if_pos hac]
      by_cases hab : a.lockedBalance = b
      · rw [if_pos hab]
        simp [List.filter_cons, hab]
      · rw [if_neg hab]
        simp [List.filter_cons, hab]
    · rw [if_neg hac]
      have hlt : a.lockedBalance < c.lockedBalance := by
        unfold stakeGE at hac
        omega
      by_cases hab : a.lockedBalance = b
      · have hcb : ¬ c.lockedBalance = b := by omega
        rw [if_pos hab]
        simp only [List.filter_cons]
        rw [ih, if_pos hab]
        simp [hcb]
      · rw [if_neg hab]
        simp only [List.filter_cons]
        rw [ih, if_neg hab]

theorem filter_insertionSort (b : Nat) (l : List StakeInfo) :
    (l.insertionSort stakeGE).filter (fun x => x.lockedBalance == b) =
      l.filter (fun x => x.lockedBalance == b) := by
  induction l with
  | nil => rfl
  | cons a l ih =>
    rw [List.insertionSort, filter_orderedInsert, ih, List.filter_cons]
    by_cases hab : a.lockedBalance = b
    · rw [if_pos hab]
      simp [hab]
    · rw [if_neg hab]
      simp [hab]

/-! Claim theorems. -/

/-- C7: the ranking is a total, deterministic and idempotent function: for
every StakerSnapshot `s` (a total Lean function, so it terminates without
error on every input, the empty one included), `LockedBalanceTop20` is
idempotent, its result has length `min 20 s.length`, is sorted descending
by `lockedBalance` (`stakeGE`), and records with equal `lockedBalance` keep
their relative input order (for each balance `b`, the `b`-records of the
output form an order-preserving sublist of the `b`-records of the input). -/
theorem C7_ranking_total_deterministic_idempotent (s : StakeInfos) :
    LockedBalanceTop20 (LockedBalanceTop20 s) = LockedBalanceTop20 s ∧
    (LockedBalanceTop20 s).length = min 20 s.length ∧
    List.Sorted stakeGE (LockedBalanceTop20 s) ∧
    (∀ b : Nat, List.Sublist ((LockedBalanceTop20 s).filter (fun r => r.lockedBalance == b))
      (s.filter (fun r => r.lockedBalance == b))) := by
  have hsorted : List.Sorted stakeGE (s.insertionSort stakeGE) :=
    List.sorted_insertionSort stakeGE s
  have htake : List.Sorted stakeGE ((s.insertionSort stakeGE).take 20) :=
    List.Pairwise.take hsorted
  refine ⟨?_, ?_, htake, ?_⟩
  · show ((((s.insertionSort stakeGE).take 20).insertionSort stakeGE)).take 20 =
      (s.insertionSort stakeGE).take 20
    rw [List.Sorted.insertionSort_eq htake, List.take_take]
    norm_num
  · rw [LockedBalanceTop20, List.length_take, List.length_insertionSort]
  · intro b
    have h1 : List.Sublist ((LockedBalanceTop20 s).filter (fun r => r.lockedBalance == b))
        ((s.insertionSort stakeGE).filter (fun r => r.lockedBalance == b)) :=
      List.Sublist.filter _ (List.take_sublist 20 _)
    rw [filter_insertionSort] at h1
    exact h1

/-- C1: the claim states that the stopped list computed by `syncStakeInfos`
contains no entry for a record of `lastTop` whose `workBase` is present in
`currentTop`. Evaluating the embedded diff loop on `lastTop = currentTop`
(a single record `A` present in both) produces a stopped entry for `A`
anyway, with `isWork = false`: the inner comparison loop is a no-op, so the
code appends every record of `lastTop` as stopped regardless of matches. -/
theorem C1_diff_includes_matched_staker :
    stoppedStakers [⟨[1], [1], true, 5, 0⟩] [⟨[1], [1], true, 5, 0⟩] =
      [⟨[1], [1], false, 5, 0⟩] ∧
    ((⟨[1], [1], false, 5, 0⟩ : StakeInfo).workBase =
      (⟨[1], [1], true, 5, 0⟩ : StakeInfo).workBase ∧
     stoppedStakers [⟨[1], [1], true, 5, 0⟩] [⟨[1], [1], true, 5, 0⟩] ≠ []) := by
  refine ⟨rfl, rfl, ?_⟩
  decide

/-- C2 counterexample: at epoch boundary 1000, with the accumulator holding
one record and the destination-chain submission failing, the claim says the
accumulator is left unchanged; the code returns an empty accumulator. -/
theorem C2_counterexample_accumulator_cleared_on_failure :
    (getDepositEventsForBlock 1000 1000 (Except.ok []) (some "submit failed")
        [⟨[1], [1], true, 5, 0⟩]).1 ≠ [⟨[1], [1], true, 5, 0⟩] ∧
    (getDepositEventsForBlock 1000 1000 (Except.ok []) (some "submit failed")
        [⟨[1], [1], true, 5, 0⟩]).1 = [] := by
  constructor
  · decide
  · rfl

/-- C2 amended: at every epoch boundary where the accumulator (after the
block's logs are appended) is non-empty, `getDepositEventsForBlock` resets
the accumulator to empty regardless of whether the destination-chain
submission succeeded or failed, and returns a nil error; the submission
error is only logged. -/
theorem C2_accumulator_cleared_regardless_of_submission
    (epochLength latestBlock : Nat) (logs : List DepositLog)
    (submitTxErr : Option String) (acc : StakeInfos)
    (hepoch : latestBlock % epochLength = 0)
    (hne : acc ++ logs.map depositRecordOfLog ≠ []) :
    getDepositEventsForBlock epochLength latestBlock (Except.ok logs)
      submitTxErr acc = ([], none) := by
  unfold getDepositEventsForBlock
  simp only [hepoch]
  rw [if_pos (by simp)]
  have hlen : (acc ++ logs.map depositRecordOfLog).length ≠ 0 := by
    intro h0
    exact hne (List.eq_nil_of_length_eq_zero h0)
  rw [if_neg (by simpa using hlen)]

/-- Witness for C2's amended theorem at epoch boundary 1000 with one
accumulated record and a failing submission. -/
theorem C2_witness :
    1000 % 1000 = 0 ∧
    ([⟨[1], [1], true, 5, 0⟩] : StakeInfos) ++ List.map depositRecordOfLog [] ≠ [] ∧
    getDepositEventsForBlock 1000 1000 (Except.ok []) (some "submit failed")
      [⟨[1], [1], true, 5, 0⟩] = ([], none) :=
  ⟨rfl, by decide,
    C2_accumulator_cleared_regardless_of_submission 1000 1000 [] (some "submit failed")
      [⟨[1], [1], true, 5, 0⟩] rfl (by decide)⟩

/-- C3: commit atomicity on submission failure: for every epoch-boundary run
of `syncStakeInfos` in which `SubmitTx` returns an error, the performed
external actions are exactly the submission itself — neither
`WriteStakeInfos` nor `WriteLatestBlock` is reached — and the error
propagates to the caller. -/
theorem C3_submit_failure_no_writes (epochLength latestBlock : Nat)
    (getInfos readInfos : StakeInfos) (e : String)
    (writeStakeInfosErr writeLatestBlockErr : Option String)
    (hepoch : latestBlock % epochLength = 0) :
    syncStakeInfos epochLength latestBlock (getInfos, none) (readInfos, none)
        (some e) writeStakeInfosErr writeLatestBlockErr =
      { events := [SyncEvent.submitTx (LockedBalanceTop20 getInfos ++
          stoppedStakers readInfos (LockedBalanceTop20 getInfos))],
        error := some e } ∧
    ∀ ev ∈ (syncStakeInfos epochLength latestBlock (getInfos, none) (readInfos, none)
        (some e) writeStakeInfosErr writeLatestBlockErr).events,
      (∀ x, ev ≠ SyncEvent.writeStakeInfos x) ∧
      (∀ blk, ev ≠ SyncEvent.writeLatestBlock blk) := by
  have hcond : (latestBlock % epochLength != 0) = false := by simp [hepoch]
  have heq : syncStakeInfos epochLength latestBlock (getInfos, none) (readInfos, none)
      (some e) writeStakeInfosErr writeLatestBlockErr =
      { events := [SyncEvent.submitTx (LockedBalanceTop20 getInfos ++
          stoppedStakers readInfos (LockedBalanceTop20 getInfos))],
        error := some e } := by
    unfold syncStakeInfos
    rw [hcond]
    rfl
  refine ⟨heq, ?_⟩
  rw [heq]
  intro ev hev
  rw [List.mem_singleton] at hev
  subst hev
  refine ⟨fun x hx => ?_, fun blk hblk => ?_⟩
  · simp at hx
  · simp at hblk

/-- Witness for C3 at epoch boundary 3000 with empty snapshots and a
failing submission. -/
theorem C3_witness :
    3000 % 1000 = 0 ∧
    syncStakeInfos 1000 3000 ([], none) ([], none) (some "boom") none none =
      { events := [SyncEvent.submitTx (LockedBalanceTop20 [] ++
          stoppedStakers [] (LockedBalanceTop20 []))], error := some "boom" } :=
  ⟨by decide,
    (C3_submit_failure_no_writes 1000 3000 [] [] "boom" none none (by decide)).1⟩

/-- Helper for C4: any prefix of the success-path event triple that contains
the cursor write also contains the snapshot write. -/
theorem prefix_of_triple_contains_write (i t : StakeInfos) (lb : Nat)
    (p : List SyncEvent)
    (hp : p <+: [SyncEvent.submitTx i, SyncEvent.writeStakeInfos t,
      SyncEvent.writeLatestBlock lb])
    (hb : ∃ blk, SyncEvent.writeLatestBlock blk ∈ p) :
    ∃ x, SyncEvent.writeStakeInfos x ∈ p := by
  obtain ⟨q, hq⟩ := hp
  obtain ⟨blk, hbm⟩ := hb
  rcases p with _ | ⟨x1, p⟩
  · simp at hbm
  rcases p with _ | ⟨x2, p⟩
  · simp at hq
    obtain ⟨h1, -⟩ := hq
    subst h1
    simp at hbm
  rcases p with _ | ⟨x3, p⟩
  · simp at hq
    obtain ⟨-, h2, -⟩ := hq
    subst h2
    exact ⟨t, by simp⟩
  rcases p with _ | ⟨x4, p⟩
  · simp at hq
    obtain ⟨-, h2, -⟩ := hq
    subst h2
    exact ⟨t, by simp⟩
  · exfalso
    simp at hq

/-- C4: commit ordering on submission success: in every run of
`syncStakeInfos`, every prefix of the performed external actions containing
the cursor write (`WriteLatestBlock`) already contains the snapshot write
(`WriteStakeInfos`) — the only intermediate state between the two writes is
new-snapshot-with-old-cursor — and on the fully successful epoch path the
actions are exactly submission, snapshot write, cursor write, in that
order. -/
theorem C4_snapshot_persisted_before_cursor (epochLength latestBlock : Nat)
    (getRes readRes : StakeInfos × Option String)
    (submitTxErr writeStakeInfosErr writeLatestBlockErr : Option String) :
    (∀ p, p <+: (syncStakeInfos epochLength latestBlock getRes readRes
        submitTxErr writeStakeInfosErr writeLatestBlockErr).events →
      (∃ blk, SyncEvent.writeLatestBlock blk ∈ p) →
      ∃ x, SyncEvent.writeStakeInfos x ∈ p) ∧
    (latestBlock % epochLength = 0 → getRes.2 = none → readRes.2 = none →
      submitTxErr = none → writeStakeInfosErr = none → writeLatestBlockErr = none →
      (syncStakeInfos epochLength latestBlock getRes readRes submitTxErr
          writeStakeInfosErr writeLatestBlockErr).events =
        [SyncEvent.submitTx (LockedBalanceTop20 getRes.1 ++
            stoppedStakers readRes.1 (LockedBalanceTop20 getRes.1)),
         SyncEvent.writeStakeInfos (LockedBalanceTop20 getRes.1),
         SyncEvent.writeLatestBlock latestBlock]) := by
  rcases getRes with ⟨gi, ge⟩
  rcases readRes with ⟨ri, re⟩
  constructor
  · intro p hp hb
    obtain ⟨blk, hbm⟩ := hb
    unfold syncStakeInfos at hp
    by_cases hep : (latestBlock % epochLength != 0) = true
    · rw [if_pos hep] at hp
      have hmem := hp.subset hbm
      simp at hmem
    · rw [if_neg hep] at hp
      cases ge with
      | some e =>
        have hmem := hp.subset hbm
        simp at hmem
      | none =>
        cases re with
        | some e =>
          have hmem := hp.subset hbm
          simp at hmem
        | none =>
          cases submitTxErr with
          | some e =>
            have hmem := hp.subset hbm
            simp at hmem
          | none =>
            cases writeStakeInfosErr with
            | some e =>
              have hmem := hp.subset hbm
              simp at hmem
            | none =>
              cases writeLatestBlockErr with
              | some e =>
                exact prefix_of_triple_contains_write _ _ _ p hp ⟨blk, hbm⟩
              | none =>
                exact prefix_of_triple_contains_write _ _ _ p hp ⟨blk, hbm⟩
  · intro hep hge hre hse hwi hwb
    dsimp only at hge hre
    subst hge
    subst hre
    subst hse
    subst hwi
    subst hwb
    have hcond : (latestBlock % epochLength != 0) = false := by simp [hep]
    unfold syncStakeInfos
    rw [hcond]
    rfl

/-- Witness for C4 at epoch boundary 2000 on the fully successful path with
empty snapshots, including the prefix property at the full event triple. -/
theorem C4_witness :
    (∃ x, SyncEvent.writeStakeInfos x ∈
      ([SyncEvent.submitTx [], SyncEvent.writeStakeInfos [],
        SyncEvent.writeLatestBlock 2000] : List SyncEvent)) ∧
    (syncStakeInfos 1000 2000 ([], none) ([], none) none none none).events =
      [SyncEvent.submitTx (LockedBalanceTop20 [] ++
          stoppedStakers [] (LockedBalanceTop20 [])),
       SyncEvent.writeStakeInfos (LockedBalanceTop20 []),
       SyncEvent.writeLatestBlock 2000] := by
  have h := C4_snapshot_persisted_before_cursor 1000 2000 ([], none) ([], none)
    none none none
  refine ⟨?_, h.2 (by decide) rfl rfl rfl rfl rfl⟩
  exact h.1 [SyncEvent.submitTx [], SyncEvent.writeStakeInfos [],
      SyncEvent.writeLatestBlock 2000] ⟨[], by decide⟩ ⟨2000, by decide⟩

/-- C5: confirmation gating: with a non-exhausted retry budget, if the
fetched latest height minus the candidate height is below the confirmation
depth, the poller leaves the state unchanged (same height, same retry
budget — a wait, not a failure); otherwise it processes the height in this
iteration: a processing error is returned, and on success the height
advances and the budget resets. -/
theorem C5_confirmation_gating (blockConfirmations blockRetryLimit : Nat)
    (s : PollState) (latestBlock : Nat) (syncErr : Option String)
    (hretry : s.retry ≠ 0) :
    ((latestBlock : Int) - (s.currentBlock : Int) < (blockConfirmations : Int) →
      pollStep blockConfirmations blockRetryLimit s
        (.run (some latestBlock) syncErr) = .next s) ∧
    ((blockConfirmations : Int) ≤ (latestBlock : Int) - (s.currentBlock : Int) →
      pollStep blockConfirmations blockRetryLimit s
        (.run (some latestBlock) syncErr) =
        match syncErr with
        | some e => .failed e
        | none => .next ⟨s.currentBlock + 1, blockRetryLimit⟩) := by
  have hr : (s.retry == 0) = false := by simpa using hretry
  have hstep : pollStep blockConfirmations blockRetryLimit s
      (.run (some latestBlock) syncErr) =
      if (latestBlock : Int) - (s.currentBlock : Int) < (blockConfirmations : Int) then
        .next s
      else match syncErr with
        | some e => .failed e
        | none => .next ⟨s.currentBlock + 1, blockRetryLimit⟩ := by
    unfold pollStep
    rw [hr]
    rfl
  constructor
  · intro hlt
    rw [hstep, if_pos hlt]
  · intro hge
    have hnlt : ¬ ((latestBlock : Int) - (s.currentBlock : Int) <
        (blockConfirmations : Int)) := by omega
    rw [hstep, if_neg hnlt]

/-- Witness for C5 with depth 5 at height 10: latest 14 = 10 + 5 - 1 is not
processed (state unchanged), latest 15 = 10 + 5 is processed (height
advances, budget resets). -/
theorem C5_witness :
    pollStep 5 3 ⟨10, 3⟩ (.run (some 14) none) = .next ⟨10, 3⟩ ∧
    pollStep 5 3 ⟨10, 3⟩ (.run (some 15) none) = .next ⟨11, 3⟩ :=
  ⟨(C5_confirmation_gating 5 3 ⟨10, 3⟩ 14 none (by decide)).1 (by decide),
   (C5_confirmation_gating 5 3 ⟨10, 3⟩ 15 none (by decide)).2 (by decide)⟩

/-- Helper for C6: starting with retry budget `k` and `k` consecutive
latest-block fetch failures at the same height, the next iteration of the
loop terminates with the retries-exceeded outcome whatever its input and
whatever inputs follow. -/
theorem pollRun_replicate_fetchfail (blockConfirmations blockRetryLimit : Nat) :
    ∀ (k h : Nat) (latestRes : Option Nat) (syncErr : Option String)
      (rest : List PollInput),
      pollRun blockConfirmations blockRetryLimit ⟨h, k⟩
        (List.replicate k (.run none none) ++ (.run latestRes syncErr) :: rest) =
        .retriesExceeded := by
  intro k
  induction k with
  | zero =>
    intro h latestRes syncErr rest
    simp [pollRun, pollStep]
  | succ k ih =>
    intro h latestRes syncErr rest
    rw [List.replicate_succ, List.cons_append, pollRun]
    have hstep : pollStep blockConfirmations blockRetryLimit ⟨h, k + 1⟩
        (.run none none) = .next ⟨h, k⟩ := by
      unfold pollStep
      simp
    rw [hstep]
    exact ih h latestRes syncErr rest

/-- C6: retry exhaustion: from a full retry budget `R`, after exactly `R`
consecutive latest-block fetch failures at the same height the loop
terminates with the retries-exceeded outcome and processes no further
input (the trailing inputs are ignored); and a successful processing of a
confirmed block resets the budget to `R`. -/
theorem C6_retry_exhaustion (blockConfirmations blockRetryLimit h : Nat)
    (latestRes : Option Nat) (syncErr : Option String) (rest : List PollInput) :
    pollRun blockConfirmations blockRetryLimit ⟨h, blockRetryLimit⟩
      (List.replicate blockRetryLimit (.run none none) ++
        (.run latestRes syncErr) :: rest) = .retriesExceeded ∧
    (∀ (s : PollState) (latestBlock : Nat), s.retry ≠ 0 →
      (blockConfirmations : Int) ≤ (latestBlock : Int) - (s.currentBlock : Int) →
      pollStep blockConfirmations blockRetryLimit s (.run (some latestBlock) none) =
        .next ⟨s.currentBlock + 1, blockRetryLimit⟩) := by
  constructor
  · exact pollRun_replicate_fetchfail blockConfirmations blockRetryLimit
      blockRetryLimit h latestRes syncErr rest
  · intro s latestBlock hretry hge
    have hr : (s.retry == 0) = false := by simpa using hretry
    have hnlt : ¬ ((latestBlock : Int) - (s.currentBlock : Int) <
        (blockConfirmations : Int)) := by omega
    have hstep : pollStep blockConfirmations blockRetryLimit s
        (.run (some latestBlock) none) =
        if (latestBlock : Int) - (s.currentBlock : Int) < (blockConfirmations : Int) then
          .next s
        else .next ⟨s.currentBlock + 1, blockRetryLimit⟩ := by
      unfold pollStep
      rw [hr]
      rfl
    rw [hstep, if_neg hnlt]

/-- Witness for C6 with budget 2 at height 7 and depth 0: two fetch
failures then any iteration terminates with retries exceeded; one
successful processing advances to height 8 with the budget back at 2. -/
theorem C6_witness :
    pollRun 0 2 ⟨7, 2⟩ (List.replicate 2 (.run none none) ++
      (.run (some 7) none) :: []) = .retriesExceeded ∧
    pollStep 0 2 ⟨7, 2⟩ (.run (some 7) none) = .next ⟨8, 2⟩ := by
  have h := C6_retry_exhaustion 0 2 7 (some 7) none []
  exact ⟨h.1, h.2 ⟨7, 2⟩ 7 (by decide) (by decide)⟩

/-- C9: the claim states that when the lookup of a single index fails, that
item is omitted from the snapshot. On a registry of 50 stakers (one
enumerated index after the division by 50) whose `Stakers` and `StakerInfo`
calls both fail, `GetStakeInfo` still appends a record built from the
returned zero values and returns a nil error: the failed item is not
omitted. -/
theorem C9_counterexample_failed_item_not_omitted :
    (({ newNucypherErr := none, getStakersLengthRes := Except.ok 50,
        stakers := fun _ => ([0], some "stakers lookup failed"),
        stakerInfoValue := fun _ => (0, some "staker info lookup failed") } :
        Registry).stakers 0).2 = some "stakers lookup failed" ∧
    GetStakeInfo
      { newNucypherErr := none, getStakersLengthRes := Except.ok 50,
        stakers := fun _ => ([0], some "stakers lookup failed"),
        stakerInfoValue := fun _ => (0, some "staker info lookup failed") } =
      ([⟨[0], [0], true, 0, 0⟩], none) ∧
    (GetStakeInfo
      { newNucypherErr := none, getStakersLengthRes := Except.ok 50,
        stakers := fun _ => ([0], some "stakers lookup failed"),
        stakerInfoValue := fun _ => (0, some "staker info lookup failed") }).1 ≠ [] := by
  refine ⟨rfl, rfl, ?_⟩
  decide

/-- C9 amended: a failed per-index lookup is logged but does not omit the
item and does not abort the build: whenever the binding construction and
the length fetch succeed, `GetStakeInfo` returns exactly one record per
enumerated index — `length / 50` of them, whatever the per-item errors —
together with a nil error. -/
theorem C9_item_failure_logged_not_omitted (reg : Registry) (length : Nat)
    (h1 : reg.newNucypherErr = none)
    (h2 : reg.getStakersLengthRes = Except.ok length) :
    (GetStakeInfo reg).2 = none ∧
    (GetStakeInfo reg).1.length = length / 50 := by
  unfold GetStakeInfo
  rw [h1, h2]
  refine ⟨rfl, ?_⟩
  simp

/-- Witness for C9's amended theorem at the all-lookups-failing registry of
50 stakers. -/
theorem C9_witness :
    (GetStakeInfo
      { newNucypherErr := none, getStakersLengthRes := Except.ok 50,
        stakers := fun _ => ([0], some "stakers lookup failed"),
        stakerInfoValue := fun _ => (0, some "staker info lookup failed") }).2 = none ∧
    (GetStakeInfo
      { newNucypherErr := none, getStakersLengthRes := Except.ok 50,
        stakers := fun _ => ([0], some "stakers lookup failed"),
        stakerInfoValue := fun _ => (0, some "staker info lookup failed") }).1.length
      = 50 / 50 :=
  C9_item_failure_logged_not_omitted _ 50 rfl rfl

/-- C10: whole-registry failure is silent: when constructing the contract
binding fails or fetching the staker count fails, `GetStakeInfo` returns
the empty snapshot with a nil error, and at an epoch boundary the
synchronizer therefore proceeds with an empty `currentTop` (submitting the
diff against it and committing) instead of failing the block. -/
theorem C10_whole_registry_failure_silent (reg : Registry)
    (h : reg.newNucypherErr ≠ none ∨ ∃ e, reg.getStakersLengthRes = Except.error e) :
    GetStakeInfo reg = ([], none) ∧
    (∀ epochLength latestBlock (lastInfos : StakeInfos),
      latestBlock % epochLength = 0 →
      syncStakeInfos epochLength latestBlock (GetStakeInfo reg) (lastInfos, none)
        none none none =
      { events := [SyncEvent.submitTx (stoppedStakers lastInfos []),
          SyncEvent.writeStakeInfos [], SyncEvent.writeLatestBlock latestBlock],
        error := none }) := by
  have hmain : GetStakeInfo reg = ([], none) := by
    unfold GetStakeInfo
    rcases h with h | ⟨e, h⟩
    · obtain ⟨e2, hne⟩ := Option.ne_none_iff_exists'.mp h
      rw [hne]
    · rw [h]
      cases hne : reg.newNucypherErr with
      | none => rfl
      | some e2 => rfl
  refine ⟨hmain, ?_⟩
  intro epochLength latestBlock lastInfos hepoch
  rw [hmain]
  have hcond : (latestBlock % epochLength != 0) = false := by simp [hepoch]
  unfold syncStakeInfos
  rw [hcond]
  rfl

/-- Witness for C10 at a registry whose binding construction fails. -/
theorem C10_witness :
    GetStakeInfo
      { newNucypherErr := some "dial failed",
        getStakersLengthRes := Except.ok 0,
        stakers := fun _ => ([], none),
        stakerInfoValue := fun _ => (0, none) } = ([], none) ∧
    syncStakeInfos 1000 1000
        (GetStakeInfo
          { newNucypherErr := some "dial failed",
            getStakersLengthRes := Except.ok 0,
            stakers := fun _ => ([], none),
            stakerInfoValue := fun _ => (0, none) }) ([], none) none none none =
      { events := [SyncEvent.submitTx (stoppedStakers [] []),
          SyncEvent.writeStakeInfos [], SyncEvent.writeLatestBlock 1000],
        error := none } := by
  have h := C10_whole_registry_failure_silent
    { newNucypherErr := some "dial failed", getStakersLengthRes := Except.ok 0,
      stakers := fun _ => ([], none), stakerInfoValue := fun _ => (0, none) }
    (Or.inl (by simp))
  exact ⟨h.1, h.2 1000 1000 [] (by decide)⟩

/-- C8: round-trip persistence of snapshots: for every valid StakerSnapshot
(in particular the empty one, a single record, or 20 records with
duplicated balances), after a `WriteStakeInfos` to a file,
`ReadStakeInfos` on that file returns the same snapshot and a nil
error. -/
theorem C8_write_read_roundtrip (fs : FileSystem) (file : String)
    (s : StakeInfos) (h : ValidSnapshot s) :
    ReadStakeInfos (WriteStakeInfos fs file s) file = (s, none) := by
  have hne : ¬ (encStakeInfos s).length = 0 := by
    intro h0
    exact encStakeInfos_ne_nil s (List.eq_nil_of_length_eq_zero h0)
  unfold ReadStakeInfos WriteStakeInfos fsWrite
  rw [if_pos rfl]
  dsimp only
  rw [if_neg hne, decodeStakeInfos_encStakeInfos s h]

/-- Witness for C8 on two records with equal balances written over an empty
file system. -/
theorem C8_witness :
    ValidSnapshot [⟨[1], [1], true, 500, 0⟩, ⟨[2], [2], true, 500, 0⟩] ∧
    ReadStakeInfos (WriteStakeInfos (fun _ => none) "stake_info.json"
        [⟨[1], [1], true, 500, 0⟩, ⟨[2], [2], true, 500, 0⟩]) "stake_info.json" =
      ([⟨[1], [1], true, 500, 0⟩, ⟨[2], [2], true, 500, 0⟩], none) :=
  ⟨by unfold ValidSnapshot ValidRecord; decide,
   C8_write_read_roundtrip (fun _ => none) "stake_info.json"
     [⟨[1], [1], true, 500, 0⟩, ⟨[2], [2], true, 500, 0⟩]
     (by unfold ValidSnapshot ValidRecord; decide)⟩
